import Mathlib

/-!
Verification of the batch-processing orchestrator of
`examples/public-api/python/03_batch_processing.py`.

The sequential data flow of `process_item` and of the result-collection loop
in `main` is embedded as executable Lean functions; the thread-pool execution
of `main` (ThreadPoolExecutor with `max_workers=CONCURRENCY`) is embedded as a
small-step transition relation on scheduler states.
-/

namespace FlowMaestro

/-- Opaque key-value map (`dict[str, Any]` restricted to the string entries
actually used by the example). -/
abbrev JsonObj := List (String × String)

/-- Mirrors the module-level configuration constants of the example. -/
def CONCURRENCY : Nat := 5

/-- `RETRY_DELAY = 1.0` (seconds), embedded as an exact rational. -/
def RETRY_DELAY : ℚ := 1

/-- `MAX_RETRIES = 3`. -/
def MAX_RETRIES : Nat := 3

/-- `SAMPLE_DATA`: the eight sample rows of the example. -/
def SAMPLE_DATA : List JsonObj :=
  [[("name", "Alice Johnson"), ("email", "alice@example.com"), ("department", "Engineering")],
   [("name", "Bob Smith"), ("email", "bob@example.com"), ("department", "Marketing")],
   [("name", "Carol Williams"), ("email", "carol@example.com"), ("department", "Sales")],
   [("name", "David Brown"), ("email", "david@example.com"), ("department", "Engineering")],
   [("name", "Eva Martinez"), ("email", "eva@example.com"), ("department", "Support")],
   [("name", "Frank Lee"), ("email", "frank@example.com"), ("department", "Marketing")],
   [("name", "Grace Chen"), ("email", "grace@example.com"), ("department", "Engineering")],
   [("name", "Henry Davis"), ("email", "henry@example.com"), ("department", "Sales")]]

/-- The `BatchItem` dataclass: one work item of the batch queue. -/
structure BatchItem where
  index : Nat
  data : JsonObj
  execution_id : Option String := none
  status : String := "pending"
  result : Option JsonObj := none
  error : Option String := none
  retries : Nat := 0
deriving DecidableEq, Repr

/-- Outcome of one remote call made by `process_item`: a normal return,
a raised `RateLimitError`, or any other raised exception (carrying `str(e)`). -/
inductive CallResult (α : Type) where
  | ok (value : α)
  | rateLimitError
  | failure (msg : String)
deriving DecidableEq, Repr

/-- The dictionary returned by `client.executions.wait_for_completion`:
its `"status"` entry, and the optional `"outputs"` / `"error"` entries. -/
structure WaitCompletionResult where
  status : String
  outputs : Option JsonObj := none
  error : Option String := none
deriving DecidableEq, Repr

/-- Behaviour of the remote service during one attempt on one item:
what `client.workflows.execute` does (returning the execution id on success)
and what `client.executions.wait_for_completion` does. -/
structure AttemptBehavior where
  executeResult : CallResult String
  waitResult : CallResult WaitCompletionResult
deriving DecidableEq, Repr

/-- `process_item`, unfolded on an explicit fuel counter.  The fuel only
serves Lean's termination checking; `fuel = maxRetries + 1` never runs out
because the recursion (the `return process_item(...)` retry) happens only
while `item.retries < maxRetries` and increments `item.retries`.
`beh attempt` is the behaviour of the remote service on the given attempt
(attempt 0 is the initial call).  Besides the final item the function returns
the list of back-off delays passed to `time.sleep`, in order. -/
def processItemAux (beh : Nat → AttemptBehavior) (maxRetries : Nat) (retryDelay : ℚ) :
    Nat → Nat → BatchItem → BatchItem × List ℚ
  | 0, _, item => (item, [])
  | fuel + 1, attempt, item =>
    let retryOrFail : BatchItem → BatchItem × List ℚ := fun it =>
      if it.retries < maxRetries then
        let bumped := { it with retries := it.retries + 1 }
        let delay : ℚ := retryDelay * 2 ^ (bumped.retries - 1)
        let rest := processItemAux beh maxRetries retryDelay fuel (attempt + 1) bumped
        (rest.1, delay :: rest.2)
      else
        ({ it with
             status := "failed",
             error := some ("Rate limited after " ++ toString maxRetries ++ " retries") }, [])
    match (beh attempt).executeResult with
    | .rateLimitError => retryOrFail item
    | .failure msg => ({ item with status := "failed", error := some msg }, [])
    | .ok execId =>
      let started := { item with execution_id := some execId, status := "running" }
      match (beh attempt).waitResult with
      | .rateLimitError => retryOrFail started
      | .failure msg => ({ started with status := "failed", error := some msg }, [])
      | .ok res =>
        if res.status = "completed" then
          ({ started with status := "completed", result := res.outputs }, [])
        else
          ({ started with
               status := "failed",
               error := some (res.error.getD "Unknown error") }, [])

/-- `process_item(client, item, workflow_id)`: processes one item, returning
the final item together with the observed back-off delays. -/
def process_item (beh : Nat → AttemptBehavior) (maxRetries : Nat) (retryDelay : ℚ)
    (item : BatchItem) : BatchItem × List ℚ :=
  processItemAux beh maxRetries retryDelay (maxRetries + 1) 0 item

/-- `items = [BatchItem(index=i, data=data) for i, data in enumerate(SAMPLE_DATA)]`. -/
def initItems (rows : List JsonObj) : List BatchItem :=
  rows.enum.map fun p => { index := p.1, data := p.2 }

/-- The `as_completed` collection loop: `items[result.index] = result`,
folded over the results in their completion order. -/
def collectResults (items : List BatchItem) (results : List BatchItem) : List BatchItem :=
  results.foldl (fun acc r => acc.set r.index r) items

/-- The whole batch run of `main` (lines 137-161), with the nondeterministic
completion order of `as_completed` made explicit: `order` lists the item
indices in the order their futures complete.  `beh i` is the remote service's
behaviour on item `i`. -/
def runBatch (beh : Nat → Nat → AttemptBehavior) (maxRetries : Nat) (retryDelay : ℚ)
    (rows : List JsonObj) (order : List Nat) : List BatchItem :=
  collectResults (initItems rows)
    (order.filterMap fun i =>
      ((initItems rows)[i]?).map fun it =>
        (process_item (beh i) maxRetries retryDelay it).1)

/-- `completed = [i for i in items if i.status == "completed"]`. -/
def completedItems (items : List BatchItem) : List BatchItem :=
  items.filter fun i => i.status == "completed"

/-- `failed = [i for i in items if i.status == "failed"]`. -/
def failedItems (items : List BatchItem) : List BatchItem :=
  items.filter fun i => i.status == "failed"

/-- Python division: raises `ZeroDivisionError` on a zero divisor, so the
embedding returns `none` there. -/
def pyDiv (a b : ℚ) : Option ℚ :=
  if b = 0 then none else some (a / b)

/-- `(len(completed) / len(items)) * 100` of the summary, propagating the
possible `ZeroDivisionError`. -/
def successRatePercent (items : List BatchItem) : Option ℚ :=
  (pyDiv ((completedItems items).length : ℚ) ((items.length : ℚ))).map (· * 100)

/-- The value printed by the format specifier `:.1f`, in tenths, for the
exact-decimal rationals arising here (where `q * 10` is an integer and the
format specifier does no rounding). -/
def fmtTenths (q : ℚ) : ℤ := (q * 10).num / ((q * 10).den : ℤ)

/-- `f"{q:.1f}"` for the non-negative exact-decimal values arising here. -/
def formatFixed1 (q : ℚ) : String :=
  toString (fmtTenths q / 10) ++ "." ++ toString ((fmtTenths q % 10).natAbs)

/-- Where a pool thread currently is inside `process_item`:
about to call `client.workflows.execute`, about to call
`client.executions.wait_for_completion`, or inside the back-off `time.sleep`. -/
inductive WorkerPhase where
  | toExecute
  | toWait
  | sleeping
deriving DecidableEq, Repr

/-- One busy thread of the `ThreadPoolExecutor`: the index of the item it
owns, the attempt it is on, and its position inside `process_item`. -/
structure WorkerJob where
  idx : Nat
  attempt : Nat
  phase : WorkerPhase
deriving DecidableEq, Repr

/-- Result of one micro-step of a worker: either it keeps running (with an
updated job and item) or `process_item` returns with a terminal item. -/
inductive StepResult where
  | next (w : WorkerJob) (item : BatchItem)
  | done (item : BatchItem)
deriving DecidableEq, Repr

/-- The `except RateLimitError` handler of `process_item`: bump the retry
counter and go to sleep while `item.retries < MAX_RETRIES`, otherwise fail. -/
def rateLimitStep (maxRetries : Nat) (w : WorkerJob) (item : BatchItem) : StepResult :=
  if item.retries < maxRetries then
    .next { w with phase := .sleeping } { item with retries := item.retries + 1 }
  else
    .done { item with
              status := "failed",
              error := some ("Rate limited after " ++ toString maxRetries ++ " retries") }

/-- One micro-step of a worker running `process_item` on its item, given the
remote service's behaviour `beh attempt` for each attempt of this item. -/
def workerStep (beh : Nat → AttemptBehavior) (maxRetries : Nat)
    (w : WorkerJob) (item : BatchItem) : StepResult :=
  match w.phase with
  | .toExecute =>
    match (beh w.attempt).executeResult with
    | .rateLimitError => rateLimitStep maxRetries w item
    | .failure msg => .done { item with status := "failed", error := some msg }
    | .ok execId =>
      .next { w with phase := .toWait }
        { item with execution_id := some execId, status := "running" }
  | .toWait =>
    match (beh w.attempt).waitResult with
    | .rateLimitError => rateLimitStep maxRetries w item
    | .failure msg => .done { item with status := "failed", error := some msg }
    | .ok res =>
      if res.status = "completed" then
        .done { item with status := "completed", result := res.outputs }
      else
        .done { item with
                  status := "failed",
                  error := some (res.error.getD "Unknown error") }
  | .sleeping => .next { w with phase := .toExecute, attempt := w.attempt + 1 } item

/-- Global state of the pool: the shared `items` list, the indices of the
submitted futures not yet picked up by a thread (in submission order), the
busy threads, and whether a stop has been requested. -/
structure SchedState where
  items : List BatchItem
  queue : List Nat
  workers : List WorkerJob
  cancelled : Bool
deriving DecidableEq, Repr

/-- The batch run as a transition relation.  `dispatch` models a free pool
thread picking up the next submitted future (`max_workers = C` bounds the
busy threads), `work` and `finish` are worker micro-steps, and `cancel` —
modelled from the spec: the caller may request a stop (the example itself has
no stop mechanism) — sets the flag that blocks further dispatching. -/
inductive Step (beh : Nat → Nat → AttemptBehavior) (C maxRetries : Nat) :
    SchedState → SchedState → Prop where
  | dispatch (s : SchedState) (i : Nat) (q' : List Nat) :
      s.cancelled = false → s.workers.length < C → s.queue = i :: q' →
      Step beh C maxRetries s
        { s with queue := q', workers := s.workers ++ [⟨i, 0, .toExecute⟩] }
  | work (s : SchedState) (p : Nat) (w w' : WorkerJob) (it it' : BatchItem) :
      s.workers[p]? = some w → s.items[w.idx]? = some it →
      workerStep (beh w.idx) maxRetries w it = .next w' it' →
      Step beh C maxRetries s
        { s with workers := s.workers.set p w', items := s.items.set w.idx it' }
  | finish (s : SchedState) (p : Nat) (w : WorkerJob) (it it' : BatchItem) :
      s.workers[p]? = some w → s.items[w.idx]? = some it →
      workerStep (beh w.idx) maxRetries w it = .done it' →
      Step beh C maxRetries s
        { s with workers := s.workers.eraseIdx p, items := s.items.set w.idx it' }
  | cancel (s : SchedState) :
      Step beh C maxRetries s { s with cancelled := true }

/-- State right after all futures have been submitted and before any thread
has picked one up. -/
def initState (rows : List JsonObj) : SchedState :=
  { items := initItems rows, queue := List.range rows.length,
    workers := [], cancelled := false }

/-- States an execution of the batch run can reach. -/
def Reachable (beh : Nat → Nat → AttemptBehavior) (C maxRetries : Nat)
    (rows : List JsonObj) (s : SchedState) : Prop :=
  Relation.ReflTransGen (Step beh C maxRetries) (initState rows) s

/-- The `as_completed` loop has consumed every future: `run` returns. -/
def Done (s : SchedState) : Prop := s.queue = [] ∧ s.workers = []

/-- An item state is terminal when it is Completed or Failed. -/
def isTerminal (it : BatchItem) : Prop :=
  it.status = "completed" ∨ it.status = "failed"

instance (it : BatchItem) : Decidable (isTerminal it) := by
  unfold isTerminal
  infer_instance

/-- Number of items currently in the Running state. -/
def countRunning (s : SchedState) : Nat :=
  (s.items.filter fun it => it.status == "running").length

/-- Number of items currently in a terminal state. -/
def countTerminal (s : SchedState) : Nat :=
  (s.items.filter fun it => it.status == "completed" || it.status == "failed").length

/-! ### General list helpers -/

lemma set_of_getElem?_eq {α : Type} :
    ∀ (l : List α) (p : Nat) (a : α), l[p]? = some a → l.set p a = l
  | [], _, _, h => by simp at h
  | x :: xs, 0, a, h => by
    simp only [List.getElem?_cons_zero, Option.some.injEq] at h
    simp [List.set, h]
  | x :: xs, p + 1, a, h => by
    simp only [List.getElem?_cons_succ] at h
    simp [List.set, set_of_getElem?_eq xs p a h]

lemma mem_eraseIdx_of_ne {α : Type} :
    ∀ (l : List α) (p : Nat) (a b : α),
      a ∈ l → l[p]? = some b → a ≠ b → a ∈ l.eraseIdx p
  | x :: xs, 0, a, b, ha, hb, hne => by
    simp only [List.getElem?_cons_zero, Option.some.injEq] at hb
    subst hb
    rcases List.mem_cons.mp ha with h | h
    · exact absurd h hne
    · simpa [List.eraseIdx] using h
  | x :: xs, p + 1, a, b, ha, hb, hne => by
    simp only [List.getElem?_cons_succ] at hb
    rcases List.mem_cons.mp ha with h | h
    · simp [List.eraseIdx, h]
    · simpa [List.eraseIdx] using Or.inr (mem_eraseIdx_of_ne xs p a b h hb hne)

lemma map_eraseIdx' {α β : Type} (f : α → β) :
    ∀ (l : List α) (p : Nat), (l.eraseIdx p).map f = (l.map f).eraseIdx p
  | [], _ => by simp
  | _ :: _, 0 => by simp [List.eraseIdx]
  | x :: xs, p + 1 => by simp [List.eraseIdx, map_eraseIdx' f xs p]

lemma length_filter_le_pointwise {α : Type} (p : α → Bool) :
    ∀ (l l' : List α), l.length = l'.length →
      (∀ (k : Nat) (a a' : α), l[k]? = some a → l'[k]? = some a' →
        p a = true → p a' = true) →
      (l.filter p).length ≤ (l'.filter p).length
  | [], _, _, _ => by simp
  | x :: xs, [], hlen, _ => by simp at hlen
  | x :: xs, x' :: xs', hlen, hpt => by
    have hlen' : xs.length = xs'.length := by simpa using hlen
    have htail : (xs.filter p).length ≤ (xs'.filter p).length :=
      length_filter_le_pointwise p xs xs' hlen' fun k a a' ha ha' hp =>
        hpt (k + 1) a a' (by simpa using ha) (by simpa using ha') hp
    by_cases hx : p x = true
    · have hx' : p x' = true :=
        hpt 0 x x' (by simp) (by simp) hx
      simpa [List.filter_cons, hx, hx'] using htail
    · have : (List.filter p (x :: xs)).length = (xs.filter p).length := by
        simp [List.filter_cons, hx]
      rw [this]
      refine le_trans htail ?_
      by_cases hx' : p x' = true <;> simp [List.filter_cons, hx']

/-! ### Worker micro-step facts -/

lemma rateLimitStep_next {maxRetries : Nat} {w w' : WorkerJob} {it it' : BatchItem}
    (h : rateLimitStep maxRetries w it = .next w' it') :
    w'.idx = w.idx ∧ it'.index = it.index ∧ it'.status = it.status := by
  unfold rateLimitStep at h
  split at h
  · injection h with h1 h2
    subst h1; subst h2
    exact ⟨rfl, rfl, rfl⟩
  · cases h

lemma rateLimitStep_done {maxRetries : Nat} {w : WorkerJob} {it it' : BatchItem}
    (h : rateLimitStep maxRetries w it = .done it') :
    it'.index = it.index ∧ it'.status = "failed" := by
  unfold rateLimitStep at h
  split at h
  · cases h
  · injection h with h1
    subst h1
    exact ⟨rfl, rfl⟩

lemma workerStep_next {beh : Nat → AttemptBehavior} {maxRetries : Nat}
    {w w' : WorkerJob} {it it' : BatchItem}
    (h : workerStep beh maxRetries w it = .next w' it') :
    w'.idx = w.idx ∧ it'.index = it.index ∧
      (it'.status = "running" ∨ it'.status = it.status) := by
  obtain ⟨idx, attempt, phase⟩ := w
  cases phase
  case toExecute =>
    unfold workerStep at h
    cases he : (beh attempt).executeResult <;> simp only [he] at h
    case ok execId =>
      injection h with h1 h2
      subst h1; subst h2
      exact ⟨rfl, rfl, Or.inl rfl⟩
    case rateLimitError =>
      obtain ⟨h1, h2, h3⟩ := rateLimitStep_next h
      exact ⟨h1, h2, Or.inr h3⟩
    case failure msg => cases h
  case toWait =>
    unfold workerStep at h
    cases he : (beh attempt).waitResult <;> simp only [he] at h
    case ok res =>
      split at h <;> cases h
    case rateLimitError =>
      obtain ⟨h1, h2, h3⟩ := rateLimitStep_next h
      exact ⟨h1, h2, Or.inr h3⟩
    case failure msg => cases h
  case sleeping =>
    unfold workerStep at h
    injection h with h1 h2
    subst h1; subst h2
    exact ⟨rfl, rfl, Or.inr rfl⟩

lemma workerStep_done {beh : Nat → AttemptBehavior} {maxRetries : Nat}
    {w : WorkerJob} {it it' : BatchItem}
    (h : workerStep beh maxRetries w it = .done it') :
    it'.index = it.index ∧ (it'.status = "completed" ∨ it'.status = "failed") := by
  obtain ⟨idx, attempt, phase⟩ := w
  cases phase
  case toExecute =>
    unfold workerStep at h
    cases he : (beh attempt).executeResult <;> simp only [he] at h
    case ok execId => cases h
    case rateLimitError =>
      obtain ⟨h1, h2⟩ := rateLimitStep_done h
      exact ⟨h1, Or.inr h2⟩
    case failure msg =>
      injection h with h1
      subst h1
      exact ⟨rfl, Or.inr rfl⟩
  case toWait =>
    unfold workerStep at h
    cases he : (beh attempt).waitResult <;> simp only [he] at h
    case ok res =>
      split at h <;> injection h with h1 <;> subst h1
      · exact ⟨rfl, Or.inl rfl⟩
      · exact ⟨rfl, Or.inr rfl⟩
    case rateLimitError =>
      obtain ⟨h1, h2⟩ := rateLimitStep_done h
      exact ⟨h1, Or.inr h2⟩
    case failure msg =>
      injection h with h1
      subst h1
      exact ⟨rfl, Or.inr rfl⟩
  case sleeping =>
    unfold workerStep at h
    cases h

/-! ### The scheduler invariant -/

lemma initItems_getElem? (rows : List JsonObj) (k : Nat) :
    (initItems rows)[k]? =
      (rows[k]?).map fun row => ({ index := k, data := row } : BatchItem) := by
  unfold initItems
  rw [List.getElem?_map, List.getElem?_enum]
  cases rows[k]? <;> simp

lemma initItems_length (rows : List JsonObj) : (initItems rows).length = rows.length := by
  simp [initItems]

/-- Inductive invariant of the batch run: items sit at their own index,
every status is one of the four, at most `C` threads are busy, distinct
threads own distinct items, owned items are never terminal, queued items are
untouched and Pending, and a Running (resp. Pending) item is owned by a
thread (resp. queued or owned). -/
structure Inv (C N : Nat) (s : SchedState) : Prop where
  len : s.items.length = N
  idx : ∀ (k : Nat) (it : BatchItem), s.items[k]? = some it → it.index = k
  statuses : ∀ it ∈ s.items, it.status = "pending" ∨ it.status = "running" ∨
    it.status = "completed" ∨ it.status = "failed"
  wlen : s.workers.length ≤ C
  wnodup : (s.workers.map WorkerJob.idx).Nodup
  wlt : ∀ w ∈ s.workers, w.idx < N
  wnonterm : ∀ w ∈ s.workers, ∀ it, s.items[w.idx]? = some it → ¬ isTerminal it
  qlt : ∀ i ∈ s.queue, i < N
  qpend : ∀ i ∈ s.queue, ∀ it, s.items[i]? = some it → it.status = "pending"
  qnodup : s.queue.Nodup
  qw : ∀ i ∈ s.queue, i ∉ s.workers.map WorkerJob.idx
  runOwned : ∀ (k : Nat) (it : BatchItem), s.items[k]? = some it →
    it.status = "running" → k ∈ s.workers.map WorkerJob.idx
  pendOwned : ∀ (k : Nat) (it : BatchItem), s.items[k]? = some it →
    it.status = "pending" → k ∈ s.queue ∨ k ∈ s.workers.map WorkerJob.idx

lemma inv_init (C : Nat) (rows : List JsonObj) : Inv C rows.length (initState rows) := by
  have hget : ∀ (k : Nat) (it : BatchItem), (initItems rows)[k]? = some it →
      it.index = k ∧ it.status = "pending" := by
    intro k it h
    rw [initItems_getElem?] at h
    cases hr : rows[k]? <;> rw [hr] at h
    · cases h
    · injection h with h1
      subst h1
      exact ⟨rfl, rfl⟩
  refine ⟨initItems_length rows, ?_, ?_, by simp [initState], by simp [initState],
    ?_, ?_, ?_, ?_, by simp [initState, List.nodup_range], ?_, ?_, ?_⟩
  · intro k it h
    exact (hget k it h).1
  · intro it hit
    rcases List.mem_iff_getElem?.mp hit with ⟨k, hk⟩
    exact Or.inl (hget k it hk).2
  · intro w hw
    simp [initState] at hw
  · intro w hw
    simp [initState] at hw
  · intro i hi
    simp only [initState] at hi
    exact List.mem_range.mp hi
  · intro i _ it h
    exact (hget i it h).2
  · intro i _ h
    simp [initState] at h
  · intro k it h hrun
    have := (hget k it h).2
    rw [this] at hrun
    exact absurd hrun (by decide)
  · intro k it h _
    left
    have hk : k < rows.length := by
      have := List.getElem?_eq_some_iff.mp h
      rcases this with ⟨hlt, _⟩
      simpa [initState, initItems_length] using hlt
    simpa [initState] using List.mem_range.mpr hk

lemma pending_not_terminal {it : BatchItem} (h : it.status = "pending") :
    ¬ isTerminal it := by
  intro ht
  rcases ht with h' | h' <;> rw [h] at h' <;> exact absurd h' (by decide)

lemma next_not_terminal {it it' : BatchItem}
    (h : it'.status = "running" ∨ it'.status = it.status) (hn : ¬ isTerminal it) :
    ¬ isTerminal it' := by
  rcases h with h | h
  · intro ht
    rcases ht with h' | h' <;> rw [h] at h' <;> exact absurd h' (by decide)
  · intro ht
    rcases ht with h' | h' <;> rw [h] at h'
    · exact hn (Or.inl h')
    · exact hn (Or.inr h')

lemma terminal_not_running {it : BatchItem}
    (h : it.status = "completed" ∨ it.status = "failed") : it.status ≠ "running" := by
  rcases h with h | h <;> rw [h] <;> decide

lemma terminal_not_pending {it : BatchItem}
    (h : it.status = "completed" ∨ it.status = "failed") : it.status ≠ "pending" := by
  rcases h with h | h <;> rw [h] <;> decide

lemma not_mem_eraseIdx_of_nodup {α : Type} :
    ∀ (l : List α) (p : Nat) (a : α), l.Nodup → l[p]? = some a → a ∉ l.eraseIdx p
  | [], _, _, _, h => by simp at h
  | x :: xs, 0, a, hnd, h => by
    simp only [List.getElem?_cons_zero, Option.some.injEq] at h
    subst h
    simpa [List.eraseIdx] using (List.nodup_cons.mp hnd).1
  | x :: xs, p + 1, a, hnd, h => by
    simp only [List.getElem?_cons_succ] at h
    have hx : x ∉ xs := (List.nodup_cons.mp hnd).1
    have ha : a ∈ xs := List.getElem?_mem h
    intro hmem
    rcases List.mem_cons.mp hmem with h' | h'
    · subst h'
      exact hx ha
    · exact not_mem_eraseIdx_of_nodup xs p a (List.nodup_cons.mp hnd).2 h h'

/-- One step of the scheduler preserves the invariant. -/
lemma inv_step {beh : Nat → Nat → AttemptBehavior} {C maxRetries N : Nat}
    {s s' : SchedState} (hInv : Inv C N s)
    (hstep : Step beh C maxRetries s s') : Inv C N s' := by
  cases hstep with
  | dispatch i q' hc hlen hq =>
    have hiq : i ∈ s.queue := by rw [hq]; exact List.mem_cons_self i q'
    have hiN : i < N := hInv.qlt i hiq
    have hinw : i ∉ s.workers.map WorkerJob.idx := hInv.qw i hiq
    have hqtail : ∀ j ∈ q', j ∈ s.queue := by
      intro j hj; rw [hq]; exact List.mem_cons_of_mem i hj
    have hqnd : i ∉ q' ∧ q'.Nodup := by
      have := hInv.qnodup; rw [hq] at this; exact List.nodup_cons.mp this
    refine ⟨hInv.len, hInv.idx, hInv.statuses, ?_, ?_, ?_, ?_, ?_, ?_, hqnd.2, ?_, ?_, ?_⟩
    · simpa using Nat.succ_le_of_lt hlen
    · rw [List.map_append]
      refine List.nodup_append.mpr ⟨hInv.wnodup, by simp, ?_⟩
      intro a ha hb
      simp at hb
      subst hb
      exact hinw ha
    · intro w hw
      rcases List.mem_append.mp hw with h | h
      · exact hInv.wlt w h
      · simp at h
        subst h
        exact hiN
    · intro w hw it hit
      rcases List.mem_append.mp hw with h | h
      · exact hInv.wnonterm w h it hit
      · simp at h
        subst h
        exact pending_not_terminal (hInv.qpend i hiq it hit)
    · intro j hj
      exact hInv.qlt j (hqtail j hj)
    · intro j hj it hit
      exact hInv.qpend j (hqtail j hj) it hit
    · intro j hj
      rw [List.map_append]
      intro hmem
      rcases List.mem_append.mp hmem with h | h
      · exact hInv.qw j (hqtail j hj) h
      · simp at h
        subst h
        exact hqnd.1 hj
    · intro k it hit hrun
      rw [List.map_append]
      exact List.mem_append.mpr (Or.inl (hInv.runOwned k it hit hrun))
    · intro k it hit hpend
      rcases hInv.pendOwned k it hit hpend with h | h
      · rw [hq] at h
        rcases List.mem_cons.mp h with h' | h'
        · subst h'
          right
          rw [List.map_append]
          simp
        · exact Or.inl h'
      · right
        rw [List.map_append]
        exact List.mem_append.mpr (Or.inl h)
  | work p w w' it it' hw hit hws =>
    obtain ⟨hidx', hitidx, hstat⟩ := workerStep_next hws
    have hwmem : w ∈ s.workers := List.getElem?_mem hw
    have hwidxN : w.idx < N := hInv.wlt w hwmem
    have hitmem : it ∈ s.items := List.getElem?_mem hit
    have hitindex : it.index = w.idx := hInv.idx w.idx it hit
    have hnonterm : ¬ isTerminal it := hInv.wnonterm w hwmem it hit
    have hnonterm' : ¬ isTerminal it' := next_not_terminal hstat hnonterm
    have hwidxlen : w.idx < s.items.length := by
      rcases List.getElem?_eq_some_iff.mp hit with ⟨h, _⟩; exact h
    have hmap : (s.workers.set p w').map WorkerJob.idx = s.workers.map WorkerJob.idx := by
      rw [List.map_set, hidx']
      exact set_of_getElem?_eq _ p w.idx (by rw [List.getElem?_map, hw]; rfl)
    have hget' : ∀ k : Nat, k ≠ w.idx → (s.items.set w.idx it')[k]? = s.items[k]? := by
      intro k hk
      exact List.getElem?_set_ne (fun h => hk h.symm)
    have hgetw : (s.items.set w.idx it')[w.idx]? = some it' :=
      List.getElem?_set_self hwidxlen
    have hwown : w.idx ∈ s.workers.map WorkerJob.idx :=
      List.mem_map.mpr ⟨w, hwmem, rfl⟩
    refine ⟨by simpa using hInv.len, ?_, ?_, by simpa using hInv.wlen, ?_, ?_, ?_, hInv.qlt,
      ?_, hInv.qnodup, ?_, ?_, ?_⟩
    · intro k it₂ hit₂
      by_cases hk : k = w.idx
      · subst hk
        rw [hgetw] at hit₂
        injection hit₂ with h
        subst h
        rw [hitidx, hitindex]
      · rw [hget' k hk] at hit₂
        exact hInv.idx k it₂ hit₂
    · intro it₂ hit₂
      rcases List.mem_or_eq_of_mem_set hit₂ with h | h
      · exact hInv.statuses it₂ h
      · subst h
        rcases hstat with h | h
        · exact Or.inr (Or.inl h)
        · rw [h]
          exact hInv.statuses it hitmem
    · rw [hmap]
      exact hInv.wnodup
    · intro w₂ hw₂
      rcases List.mem_or_eq_of_mem_set hw₂ with h | h
      · exact hInv.wlt w₂ h
      · subst h
        rw [hidx']
        exact hwidxN
    · intro w₂ hw₂ it₂ hit₂
      by_cases hk : w₂.idx = w.idx
      · rw [hk, hgetw] at hit₂
        injection hit₂ with h
        subst h
        exact hnonterm'
      · rw [hget' w₂.idx hk] at hit₂
        rcases List.mem_or_eq_of_mem_set hw₂ with h | h
        · exact hInv.wnonterm w₂ h it₂ hit₂
        · subst h
          exact absurd hidx' hk
    · intro j hj it₂ hit₂
      have hjne : j ≠ w.idx := fun h => hInv.qw j hj (h.symm ▸ hwown)
      rw [hget' j hjne] at hit₂
      exact hInv.qpend j hj it₂ hit₂
    · intro j hj
      rw [hmap]
      exact hInv.qw j hj
    · intro k it₂ hit₂ hrun
      rw [hmap]
      by_cases hk : k = w.idx
      · subst hk
        exact hwown
      · rw [hget' k hk] at hit₂
        exact hInv.runOwned k it₂ hit₂ hrun
    · intro k it₂ hit₂ hpend
      rw [hmap]
      by_cases hk : k = w.idx
      · subst hk
        exact Or.inr hwown
      · rw [hget' k hk] at hit₂
        exact hInv.pendOwned k it₂ hit₂ hpend
  | finish p w it it' hw hit hws =>
    obtain ⟨hitidx, hterm⟩ := workerStep_done hws
    have hwmem : w ∈ s.workers := List.getElem?_mem hw
    have hwidxN : w.idx < N := hInv.wlt w hwmem
    have hitindex : it.index = w.idx := hInv.idx w.idx it hit
    have hwidxlen : w.idx < s.items.length := by
      rcases List.getElem?_eq_some_iff.mp hit with ⟨h, _⟩; exact h
    have hmap : (s.workers.eraseIdx p).map WorkerJob.idx =
        (s.workers.map WorkerJob.idx).eraseIdx p := map_eraseIdx' _ _ _
    have hmapp : (s.workers.map WorkerJob.idx)[p]? = some w.idx := by
      rw [List.getElem?_map, hw]; rfl
    have hsub : List.Sublist (s.workers.eraseIdx p) s.workers := List.eraseIdx_sublist _ _
    have hget' : ∀ k : Nat, k ≠ w.idx → (s.items.set w.idx it')[k]? = s.items[k]? := by
      intro k hk
      exact List.getElem?_set_ne (fun h => hk h.symm)
    have hgetw : (s.items.set w.idx it')[w.idx]? = some it' :=
      List.getElem?_set_self hwidxlen
    have hsurvive : ∀ k : Nat, k ∈ s.workers.map WorkerJob.idx → k ≠ w.idx →
        k ∈ (s.workers.eraseIdx p).map WorkerJob.idx := by
      intro k hk hkne
      rw [hmap]
      exact mem_eraseIdx_of_ne _ p k w.idx hk hmapp hkne
    refine ⟨by simpa using hInv.len, ?_, ?_, ?_, ?_, ?_, ?_, hInv.qlt, ?_, hInv.qnodup,
      ?_, ?_, ?_⟩
    · intro k it₂ hit₂
      by_cases hk : k = w.idx
      · subst hk
        rw [hgetw] at hit₂
        injection hit₂ with h
        subst h
        rw [hitidx, hitindex]
      · rw [hget' k hk] at hit₂
        exact hInv.idx k it₂ hit₂
    · intro it₂ hit₂
      rcases List.mem_or_eq_of_mem_set hit₂ with h | h
      · exact hInv.statuses it₂ h
      · subst h
        rcases hterm with h | h
        · exact Or.inr (Or.inr (Or.inl h))
        · exact Or.inr (Or.inr (Or.inr h))
    · exact le_trans hsub.length_le hInv.wlen
    · rw [hmap]
      exact ((s.workers.map WorkerJob.idx).eraseIdx_sublist p).nodup hInv.wnodup
    · intro w₂ hw₂
      exact hInv.wlt w₂ (hsub.subset hw₂)
    · intro w₂ hw₂ it₂ hit₂
      have hne : w₂.idx ≠ w.idx := by
        intro h
        have : w₂.idx ∈ (s.workers.eraseIdx p).map WorkerJob.idx :=
          List.mem_map.mpr ⟨w₂, hw₂, rfl⟩
        rw [hmap, h] at this
        exact not_mem_eraseIdx_of_nodup _ p w.idx hInv.wnodup hmapp this
      rw [hget' w₂.idx hne] at hit₂
      exact hInv.wnonterm w₂ (hsub.subset hw₂) it₂ hit₂
    · intro j hj it₂ hit₂
      have hjne : j ≠ w.idx := fun h =>
        hInv.qw j hj (h.symm ▸ List.mem_map.mpr ⟨w, hwmem, rfl⟩)
      rw [hget' j hjne] at hit₂
      exact hInv.qpend j hj it₂ hit₂
    · intro j hj hmem
      exact hInv.qw j hj (((List.eraseIdx_sublist _ p).map WorkerJob.idx).subset hmem)
    · intro k it₂ hit₂ hrun
      by_cases hk : k = w.idx
      · subst hk
        rw [hgetw] at hit₂
        injection hit₂ with h
        subst h
        exact absurd hrun (terminal_not_running hterm)
      · rw [hget' k hk] at hit₂
        exact hsurvive k (hInv.runOwned k it₂ hit₂ hrun) hk
    · intro k it₂ hit₂ hpend
      by_cases hk : k = w.idx
      · subst hk
        rw [hgetw] at hit₂
        injection hit₂ with h
        subst h
        exact absurd hpend (terminal_not_pending hterm)
      · rw [hget' k hk] at hit₂
        rcases hInv.pendOwned k it₂ hit₂ hpend with h | h
        · exact Or.inl h
        · exact Or.inr (hsurvive k h hk)
  | cancel =>
    exact ⟨hInv.len, hInv.idx, hInv.statuses, hInv.wlen, hInv.wnodup, hInv.wlt,
      hInv.wnonterm, hInv.qlt, hInv.qpend, hInv.qnodup, hInv.qw, hInv.runOwned,
      hInv.pendOwned⟩

/-- The invariant holds in every reachable state. -/
lemma inv_reachable {beh : Nat → Nat → AttemptBehavior} {C maxRetries : Nat}
    {rows : List JsonObj} {s : SchedState}
    (h : Reachable beh C maxRetries rows s) : Inv C rows.length s := by
  induction h with
  | refl => exact inv_init C rows
  | tail _ hstep ih => exact inv_step ih hstep

/-! ### Consequences of the invariant -/

/-- In every invariant state the items list is the input rows' index range:
exactly `N` items, indices `0..N-1`, in ascending order. -/
lemma map_index_eq_range {C N : Nat} {s : SchedState} (hInv : Inv C N s) :
    s.items.map BatchItem.index = List.range N := by
  apply List.ext_getElem?
  intro n
  rw [List.getElem?_map]
  cases h : s.items[n]? with
  | none =>
    have hn : s.items.length ≤ n := List.getElem?_eq_none_iff.mp h
    rw [hInv.len] at hn
    exact (List.getElem?_eq_none (by simpa using hn)).symm
  | some it =>
    have hn : n < N := by
      rcases List.getElem?_eq_some_iff.mp h with ⟨hlt, _⟩
      rw [hInv.len] at hlt
      exact hlt
    rw [List.getElem?_range hn]
    simp [hInv.idx n it h]

/-- Counting argument: every Running item is owned by a distinct busy thread. -/
lemma countRunning_le_workers {C N : Nat} {s : SchedState} (hInv : Inv C N s) :
    countRunning s ≤ s.workers.length := by
  have hsubl : List.Sublist ((s.items.filter fun it => it.status == "running").map
      BatchItem.index) (s.items.map BatchItem.index) :=
    (List.filter_sublist s.items).map BatchItem.index
  have hnd : ((s.items.filter fun it => it.status == "running").map
      BatchItem.index).Nodup := by
    refine hsubl.nodup ?_
    rw [map_index_eq_range hInv]
    exact List.nodup_range N
  have hsubset : ((s.items.filter fun it => it.status == "running").map
      BatchItem.index) ⊆ s.workers.map WorkerJob.idx := by
    intro k hk
    rcases List.mem_map.mp hk with ⟨it, hit, hidx⟩
    have hmem : it ∈ s.items := (List.mem_filter.mp hit).1
    have hrun : it.status = "running" := by
      have := (List.mem_filter.mp hit).2
      simpa using this
    rcases List.getElem_of_mem hmem with ⟨n, hn, hget⟩
    have hget? : s.items[n]? = some it := by
      rw [List.getElem?_eq_getElem hn, hget]
    have : n ∈ s.workers.map WorkerJob.idx := hInv.runOwned n it hget? hrun
    rwa [← hidx, hInv.idx n it hget?]
  have := (List.subperm_of_subset hnd hsubset).length_le
  simpa [countRunning] using this

/-- No step changes an item that has already reached a terminal state. -/
lemma step_preserves_terminal {beh : Nat → Nat → AttemptBehavior} {C maxRetries N : Nat}
    {s s' : SchedState} (hInv : Inv C N s) (hstep : Step beh C maxRetries s s') :
    ∀ (k : Nat) (it : BatchItem), s.items[k]? = some it → isTerminal it →
      s'.items[k]? = some it := by
  intro k it hk hterm
  cases hstep with
  | dispatch i q' hc hlen hq => exact hk
  | work p w w' it₀ it₀' hw hit hws =>
    have hwmem : w ∈ s.workers := List.getElem?_mem hw
    have hne : k ≠ w.idx := by
      intro h
      subst h
      exact hInv.wnonterm w hwmem it hk hterm
    calc (s.items.set w.idx it₀')[k]? = s.items[k]? :=
          List.getElem?_set_ne (fun h => hne h.symm)
      _ = some it := hk
  | finish p w it₀ it₀' hw hit hws =>
    have hwmem : w ∈ s.workers := List.getElem?_mem hw
    have hne : k ≠ w.idx := by
      intro h
      subst h
      exact hInv.wnonterm w hwmem it hk hterm
    calc (s.items.set w.idx it₀')[k]? = s.items[k]? :=
          List.getElem?_set_ne (fun h => hne h.symm)
      _ = some it := hk
  | cancel => exact hk

/-- No step shrinks the set of terminal items: `countTerminal` is monotone. -/
lemma step_countTerminal_mono {beh : Nat → Nat → AttemptBehavior} {C maxRetries N : Nat}
    {s s' : SchedState} (hInv : Inv C N s) (hstep : Step beh C maxRetries s s') :
    countTerminal s ≤ countTerminal s' := by
  have hlen : s.items.length = s'.items.length := by
    have h1 := hInv.len
    have h2 := (inv_step hInv hstep).len
    rw [h1, h2]
  unfold countTerminal
  refine length_filter_le_pointwise _ s.items s'.items hlen ?_
  intro k a a' ha ha' hp
  have hterm : isTerminal a := by
    unfold isTerminal
    rcases Bool.or_eq_true_iff.mp hp with h | h
    · exact Or.inl (by simpa using h)
    · exact Or.inr (by simpa using h)
  have := step_preserves_terminal hInv hstep k a ha hterm
  rw [this] at ha'
  injection ha' with h
  subst h
  exact hp

/-- Once a stop is requested the flag stays set and the queue is frozen. -/
lemma step_cancelled {beh : Nat → Nat → AttemptBehavior} {C maxRetries : Nat}
    {s s' : SchedState} (hstep : Step beh C maxRetries s s')
    (hc : s.cancelled = true) : s'.cancelled = true ∧ s'.queue = s.queue := by
  cases hstep with
  | dispatch i q' hc' hlen hq => rw [hc] at hc'; cases hc'
  | work p w w' it it' hw hit hws => exact ⟨hc, rfl⟩
  | finish p w it it' hw hit hws => exact ⟨hc, rfl⟩
  | cancel => exact ⟨rfl, rfl⟩

/-- Star version of `step_cancelled`. -/
lemma star_cancelled {beh : Nat → Nat → AttemptBehavior} {C maxRetries : Nat}
    {s s' : SchedState}
    (hstar : Relation.ReflTransGen (Step beh C maxRetries) s s')
    (hc : s.cancelled = true) : s'.cancelled = true ∧ s'.queue = s.queue := by
  induction hstar with
  | refl => exact ⟨hc, rfl⟩
  | tail _ hstep ih =>
    obtain ⟨h1, h2⟩ := step_cancelled hstep ih.1
    exact ⟨h1, h2.trans ih.2⟩

/-- Star version of `step_preserves_terminal`, from a reachable start. -/
lemma star_preserves_terminal {beh : Nat → Nat → AttemptBehavior} {C maxRetries : Nat}
    {rows : List JsonObj} {s s' : SchedState}
    (hre : Reachable beh C maxRetries rows s)
    (hstar : Relation.ReflTransGen (Step beh C maxRetries) s s') :
    ∀ (k : Nat) (it : BatchItem), s.items[k]? = some it → isTerminal it →
      s'.items[k]? = some it := by
  induction hstar with
  | refl => intro k it h _; exact h
  | tail hstar' hstep ih =>
    intro k it h hterm
    have hre' : Reachable beh C maxRetries rows _ := hre.trans hstar'
    exact step_preserves_terminal (inv_reachable hre') hstep k it (ih k it h hterm) hterm

/-! ### Unfolding lemmas for the sequential `process_item` -/

section ProcessItemUnfold

variable {beh : Nat → AttemptBehavior} {maxRetries : Nat} {retryDelay : ℚ}
variable {fuel attempt : Nat} {item : BatchItem}

lemma processItemAux_exec_rl_retry (he : (beh attempt).executeResult = .rateLimitError)
    (hlt : item.retries < maxRetries) :
    processItemAux beh maxRetries retryDelay (fuel + 1) attempt item =
      ((processItemAux beh maxRetries retryDelay fuel (attempt + 1)
          { item with retries := item.retries + 1 }).1,
        retryDelay * 2 ^ item.retries ::
          (processItemAux beh maxRetries retryDelay fuel (attempt + 1)
            { item with retries := item.retries + 1 }).2) := by
  simp [processItemAux, he, hlt]

lemma processItemAux_exec_rl_exhaust (he : (beh attempt).executeResult = .rateLimitError)
    (hge : ¬ item.retries < maxRetries) :
    processItemAux beh maxRetries retryDelay (fuel + 1) attempt item =
      ({ item with
           status := "failed",
           error := some ("Rate limited after " ++ toString maxRetries ++ " retries") },
        []) := by
  simp [processItemAux, he, hge]

lemma processItemAux_exec_failure {msg : String}
    (he : (beh attempt).executeResult = .failure msg) :
    processItemAux beh maxRetries retryDelay (fuel + 1) attempt item =
      ({ item with status := "failed", error := some msg }, []) := by
  simp [processItemAux, he]

lemma processItemAux_wait_rl_retry {execId : String}
    (he : (beh attempt).executeResult = .ok execId)
    (hw : (beh attempt).waitResult = .rateLimitError)
    (hlt : item.retries < maxRetries) :
    processItemAux beh maxRetries retryDelay (fuel + 1) attempt item =
      ((processItemAux beh maxRetries retryDelay fuel (attempt + 1)
          { item with execution_id := some execId, status := "running",
                      retries := item.retries + 1 }).1,
        retryDelay * 2 ^ item.retries ::
          (processItemAux beh maxRetries retryDelay fuel (attempt + 1)
            { item with execution_id := some execId, status := "running",
                        retries := item.retries + 1 }).2) := by
  simp [processItemAux, he, hw, hlt]

lemma processItemAux_wait_rl_exhaust {execId : String}
    (he : (beh attempt).executeResult = .ok execId)
    (hw : (beh attempt).waitResult = .rateLimitError)
    (hge : ¬ item.retries < maxRetries) :
    processItemAux beh maxRetries retryDelay (fuel + 1) attempt item =
      ({ item with
           execution_id := some execId, status := "failed",
           error := some ("Rate limited after " ++ toString maxRetries ++ " retries") },
        []) := by
  simp [processItemAux, he, hw, hge]

lemma processItemAux_wait_failure {execId msg : String}
    (he : (beh attempt).executeResult = .ok execId)
    (hw : (beh attempt).waitResult = .failure msg) :
    processItemAux beh maxRetries retryDelay (fuel + 1) attempt item =
      ({ item with execution_id := some execId, status := "failed", error := some msg },
        []) := by
  simp [processItemAux, he, hw]

lemma processItemAux_wait_completed {execId : String} {res : WaitCompletionResult}
    (he : (beh attempt).executeResult = .ok execId)
    (hw : (beh attempt).waitResult = .ok res)
    (hres : res.status = "completed") :
    processItemAux beh maxRetries retryDelay (fuel + 1) attempt item =
      ({ item with execution_id := some execId, status := "completed",
                   result := res.outputs },
        []) := by
  simp [processItemAux, he, hw, hres]

lemma processItemAux_wait_other {execId : String} {res : WaitCompletionResult}
    (he : (beh attempt).executeResult = .ok execId)
    (hw : (beh attempt).waitResult = .ok res)
    (hres : ¬ res.status = "completed") :
    processItemAux beh maxRetries retryDelay (fuel + 1) attempt item =
      ({ item with execution_id := some execId, status := "failed",
                   error := some (res.error.getD "Unknown error") },
        []) := by
  simp [processItemAux, he, hw, hres]

end ProcessItemUnfold

instance : Inhabited BatchItem := ⟨{ index := 0, data := [] }⟩

/-- `process_item` never touches `index` or `data`. -/
lemma processItemAux_index {beh : Nat → AttemptBehavior} {maxRetries : Nat}
    {retryDelay : ℚ} :
    ∀ (fuel attempt : Nat) (item : BatchItem),
      (processItemAux beh maxRetries retryDelay fuel attempt item).1.index = item.index ∧
      (processItemAux beh maxRetries retryDelay fuel attempt item).1.data = item.data
  | 0, _, _ => ⟨rfl, rfl⟩
  | fuel + 1, attempt, item => by
    cases he : (beh attempt).executeResult with
    | rateLimitError =>
      by_cases hlt : item.retries < maxRetries
      · rw [processItemAux_exec_rl_retry he hlt]
        exact processItemAux_index fuel (attempt + 1) _
      · rw [processItemAux_exec_rl_exhaust he hlt]
        exact ⟨rfl, rfl⟩
    | failure msg =>
      rw [processItemAux_exec_failure he]
      exact ⟨rfl, rfl⟩
    | ok execId =>
      cases hw : (beh attempt).waitResult with
      | rateLimitError =>
        by_cases hlt : item.retries < maxRetries
        · rw [processItemAux_wait_rl_retry he hw hlt]
          exact processItemAux_index fuel (attempt + 1) _
        · rw [processItemAux_wait_rl_exhaust he hw hlt]
          exact ⟨rfl, rfl⟩
      | failure msg =>
        rw [processItemAux_wait_failure he hw]
        exact ⟨rfl, rfl⟩
      | ok res =>
        by_cases hres : res.status = "completed"
        · rw [processItemAux_wait_completed he hw hres]
          exact ⟨rfl, rfl⟩
        · rw [processItemAux_wait_other he hw hres]
          exact ⟨rfl, rfl⟩

/-- `process_item` always returns a terminal item (given enough fuel, which
the wrapper provides). -/
lemma processItemAux_terminal {beh : Nat → AttemptBehavior} {maxRetries : Nat}
    {retryDelay : ℚ} :
    ∀ (fuel attempt : Nat) (item : BatchItem), maxRetries - item.retries < fuel →
      (processItemAux beh maxRetries retryDelay fuel attempt item).1.status = "completed" ∨
      (processItemAux beh maxRetries retryDelay fuel attempt item).1.status = "failed"
  | 0, _, item, hfuel => by omega
  | fuel + 1, attempt, item, hfuel => by
    cases he : (beh attempt).executeResult with
    | rateLimitError =>
      by_cases hlt : item.retries < maxRetries
      · rw [processItemAux_exec_rl_retry he hlt]
        exact processItemAux_terminal fuel (attempt + 1)
          { item with retries := item.retries + 1 } (by simp; omega)
      · rw [processItemAux_exec_rl_exhaust he hlt]
        exact Or.inr rfl
    | failure msg =>
      rw [processItemAux_exec_failure he]
      exact Or.inr rfl
    | ok execId =>
      cases hw : (beh attempt).waitResult with
      | rateLimitError =>
        by_cases hlt : item.retries < maxRetries
        · rw [processItemAux_wait_rl_retry he hw hlt]
          exact processItemAux_terminal fuel (attempt + 1)
            { item with execution_id := some execId, status := "running",
                        retries := item.retries + 1 } (by simp; omega)
        · rw [processItemAux_wait_rl_exhaust he hw hlt]
          exact Or.inr rfl
      | failure msg =>
        rw [processItemAux_wait_failure he hw]
        exact Or.inr rfl
      | ok res =>
        by_cases hres : res.status = "completed"
        · rw [processItemAux_wait_completed he hw hres]
          exact Or.inl rfl
        · rw [processItemAux_wait_other he hw hres]
          exact Or.inr rfl

/-- When the remote service rate-limits on every attempt, `process_item`
performs exactly the remaining retries with pure exponential back-off and
then fails with the rate-limited message. -/
lemma processItemAux_allRL {beh : Nat → AttemptBehavior} {maxRetries : Nat}
    {retryDelay : ℚ}
    (hbeh : ∀ a : Nat, (beh a).executeResult = CallResult.rateLimitError ∨
      ∃ id, (beh a).executeResult = CallResult.ok id ∧
        (beh a).waitResult = CallResult.rateLimitError) :
    ∀ (fuel attempt : Nat) (item : BatchItem),
      item.retries ≤ maxRetries → maxRetries - item.retries < fuel →
      (processItemAux beh maxRetries retryDelay fuel attempt item).1.status = "failed" ∧
      (processItemAux beh maxRetries retryDelay fuel attempt item).1.error =
        some ("Rate limited after " ++ toString maxRetries ++ " retries") ∧
      (processItemAux beh maxRetries retryDelay fuel attempt item).1.retries = maxRetries ∧
      (processItemAux beh maxRetries retryDelay fuel attempt item).2 =
        (List.range (maxRetries - item.retries)).map
          fun k => retryDelay * 2 ^ (item.retries + k)
  | 0, _, item, _, hfuel => by omega
  | fuel + 1, attempt, item, hle, hfuel => by
    have hdelays : ∀ it' : BatchItem, it'.retries = item.retries + 1 →
        item.retries < maxRetries →
        (processItemAux beh maxRetries retryDelay fuel (attempt + 1) it').2 =
          (List.range (maxRetries - it'.retries)).map
            (fun k => retryDelay * 2 ^ (it'.retries + k)) →
        retryDelay * 2 ^ item.retries ::
            (processItemAux beh maxRetries retryDelay fuel (attempt + 1) it').2 =
          (List.range (maxRetries - item.retries)).map
            fun k => retryDelay * 2 ^ (item.retries + k) := by
      intro it' hr hlt htail
      rw [htail, hr]
      have hn : maxRetries - item.retries = (maxRetries - (item.retries + 1)) + 1 := by
        omega
      rw [hn, List.range_succ_eq_map, List.map_cons, List.map_map]
      refine congrArg₂ _ (by simp) ?_
      refine List.map_congr_left ?_
      intro k _
      have : item.retries + 1 + k = item.retries + Nat.succ k := by omega
      simp [Function.comp, this]
    rcases hbeh attempt with he | ⟨id, he, hw⟩
    · by_cases hlt : item.retries < maxRetries
      · rw [processItemAux_exec_rl_retry he hlt]
        have harg1 : ({ item with retries := item.retries + 1 } : BatchItem).retries ≤
            maxRetries := by simp; omega
        have harg2 : maxRetries -
            ({ item with retries := item.retries + 1 } : BatchItem).retries < fuel := by
          simp; omega
        obtain ⟨h1, h2, h3, h4⟩ :=
          processItemAux_allRL hbeh fuel (attempt + 1) _ harg1 harg2
        exact ⟨h1, h2, h3, hdelays _ rfl hlt h4⟩
      · rw [processItemAux_exec_rl_exhaust he hlt]
        refine ⟨rfl, rfl, by simp; omega, ?_⟩
        have : maxRetries - item.retries = 0 := by omega
        simp [this]
    · by_cases hlt : item.retries < maxRetries
      · rw [processItemAux_wait_rl_retry he hw hlt]
        have harg1 : ({ item with
                          execution_id := some id,
                          status := "running",
                          retries := item.retries + 1 } : BatchItem).retries ≤
            maxRetries := by simp; omega
        have harg2 : maxRetries - ({ item with
                                       execution_id := some id,
                                       status := "running",
                                       retries := item.retries + 1 } : BatchItem).retries <
            fuel := by simp; omega
        obtain ⟨h1, h2, h3, h4⟩ :=
          processItemAux_allRL hbeh fuel (attempt + 1) _ harg1 harg2
        exact ⟨h1, h2, h3, hdelays _ rfl hlt h4⟩
      · rw [processItemAux_wait_rl_exhaust he hw hlt]
        refine ⟨rfl, rfl, by simp; omega, ?_⟩
        have : maxRetries - item.retries = 0 := by omega
        simp [this]

/-! ### The collection loop reassembles results by index -/

lemma filterMap_eq_map_of_mem {α β : Type} {f : α → Option β} {g : α → β} :
    ∀ {l : List α}, (∀ a ∈ l, f a = some (g a)) → l.filterMap f = l.map g
  | [], _ => rfl
  | x :: xs, h => by
    rw [List.filterMap_cons, h x (List.mem_cons_self x xs), List.map_cons,
      filterMap_eq_map_of_mem fun a ha => h a (List.mem_cons_of_mem x ha)]

lemma collect_map_getElem? {g : Nat → BatchItem} :
    ∀ (order : List Nat) (acc : List BatchItem), (∀ i ∈ order, (g i).index = i) →
      ∀ k : Nat,
        (collectResults acc (order.map g))[k]? =
          if k ∈ order ∧ k < acc.length then some (g k) else acc[k]?
  | [], acc, _, k => by simp [collectResults]
  | i :: tl, acc, hg, k => by
    have hgi : (g i).index = i := hg i (List.mem_cons_self i tl)
    have hstep : collectResults acc ((i :: tl).map g) =
        collectResults (acc.set i (g i)) (tl.map g) := by
      simp [collectResults, hgi]
    rw [hstep,
      collect_map_getElem? tl (acc.set i (g i))
        (fun j hj => hg j (List.mem_cons_of_mem i hj)) k]
    by_cases hmem : k ∈ tl
    · by_cases hk : k < acc.length
      · simp [hmem, hk]
      · have h1 : acc.length ≤ k := Nat.le_of_not_lt hk
        rw [if_neg (by simp [hk]), if_neg (by simp [hk]),
          List.getElem?_eq_none (by simpa using h1), List.getElem?_eq_none h1]
    · by_cases hki : k = i
      · subst hki
        by_cases hk : k < acc.length
        · simp [hmem, hk, List.getElem?_set_self hk]
        · have h1 : acc.length ≤ k := Nat.le_of_not_lt hk
          rw [if_neg (by simp [hk]), if_neg (by simp [hk]),
            List.getElem?_eq_none (by simpa using h1), List.getElem?_eq_none h1]
      · rw [List.getElem?_set_ne (fun h => hki h.symm), if_neg (by simp [hmem]),
          if_neg (by simp [List.mem_cons, hki, hmem])]

/-- Modulo the completion order, the run is just `process_item` mapped over
the initialised items: `as_completed` reassembly restores input order. -/
lemma runBatch_eq_map {beh : Nat → Nat → AttemptBehavior} {maxRetries : Nat}
    {retryDelay : ℚ} {rows : List JsonObj} {order : List Nat}
    (hperm : order.Perm (List.range rows.length)) :
    runBatch beh maxRetries retryDelay rows order =
      (initItems rows).map
        fun it => (process_item (beh it.index) maxRetries retryDelay it).1 := by
  have hmemlt : ∀ i ∈ order, i < rows.length := fun i hi =>
    List.mem_range.mp (hperm.mem_iff.mp hi)
  have hitem : ∀ i, i < rows.length → (initItems rows)[i]? =
      some { index := i, data := rows.getD i [] } := by
    intro i hi
    rw [initItems_getElem?]
    cases hr : rows[i]? with
    | none =>
      have := List.getElem?_eq_none_iff.mp hr
      omega
    | some r => simp [hr]
  have hfm : (order.filterMap fun i =>
        ((initItems rows)[i]?).map fun it =>
          (process_item (beh i) maxRetries retryDelay it).1) =
      order.map fun i =>
        (process_item (beh i) maxRetries retryDelay
          { index := i, data := rows.getD i [] }).1 := by
    refine filterMap_eq_map_of_mem ?_
    intro i hi
    rw [hitem i (hmemlt i hi)]
    rfl
  have hg : ∀ i ∈ order,
      ((fun i => (process_item (beh i) maxRetries retryDelay
        { index := i, data := rows.getD i [] }).1) i).index = i := by
    intro i _
    exact (processItemAux_index _ _ _).1
  unfold runBatch
  rw [hfm]
  apply List.ext_getElem?
  intro k
  rw [collect_map_getElem? order (initItems rows) hg k, List.getElem?_map]
  by_cases hk : k < rows.length
  · have hkord : k ∈ order := hperm.mem_iff.mpr (List.mem_range.mpr hk)
    rw [if_pos ⟨hkord, by rwa [initItems_length]⟩, hitem k hk]
    rfl
  · have hkord : k ∉ order := fun h => hk (hmemlt k h)
    rw [if_neg (by simp [hkord])]
    rw [List.getElem?_eq_none (by rw [initItems_length]; omega)]
    rfl

/-! ### Concrete behaviours for witnesses and counterexamples -/

/-- Remote behaviour that rate-limits on every call. -/
def rlBeh : Nat → AttemptBehavior := fun _ =>
  { executeResult := .rateLimitError, waitResult := .rateLimitError }

/-- Remote behaviour that rate-limits the first attempt and completes the
second. -/
def retryThenOkBeh : Nat → AttemptBehavior := fun a =>
  if a = 0 then { executeResult := .rateLimitError, waitResult := .rateLimitError }
  else
    { executeResult := .ok "exec-2",
      waitResult := .ok { status := "completed", outputs := some [("out", "ok")] } }

/-! ### Claim C3 -/

/-- C3 as stated is false: on an item whose every attempt is rate-limited the
code produces the error string "Rate limited after 3 retries" (capital R),
not "rate limited after 3 retries". -/
theorem c3_error_string_counterexample :
    (process_item rlBeh MAX_RETRIES RETRY_DELAY { index := 0, data := [] }).1.error =
        some "Rate limited after 3 retries" ∧
      (some "Rate limited after 3 retries" : Option String) ≠
        some "rate limited after 3 retries" := by
  decide

/-- C3 (amended): an item whose unit of work raises a transient rate-limit
failure on every attempt is retried exactly `maxRetries` times with back-off
delays `retryDelay * 2 ^ k` for `k = 0, ..., maxRetries - 1` (that is,
`baseDelay, 2*baseDelay, 4*baseDelay, ...`), then marked Failed with the
error string "Rate limited after N retries" where `N = maxRetries`. -/
theorem c3_always_rate_limited_retries_then_fails
    {beh : Nat → AttemptBehavior} {maxRetries : Nat} {retryDelay : ℚ}
    {item : BatchItem}
    (hbeh : ∀ a : Nat, (beh a).executeResult = CallResult.rateLimitError ∨
      ∃ id, (beh a).executeResult = CallResult.ok id ∧
        (beh a).waitResult = CallResult.rateLimitError)
    (hfresh : item.retries = 0) :
    (process_item beh maxRetries retryDelay item).1.status = "failed" ∧
    (process_item beh maxRetries retryDelay item).1.error =
      some ("Rate limited after " ++ toString maxRetries ++ " retries") ∧
    (process_item beh maxRetries retryDelay item).1.retries = maxRetries ∧
    (process_item beh maxRetries retryDelay item).2 =
      (List.range maxRetries).map fun k => retryDelay * 2 ^ k := by
  unfold process_item
  obtain ⟨h1, h2, h3, h4⟩ :=
    @processItemAux_allRL beh maxRetries retryDelay hbeh (maxRetries + 1) 0 item
      (by omega) (by omega)
  refine ⟨h1, h2, h3, ?_⟩
  rw [h4, hfresh]
  simp

/-- C3 (amended) witness: the always-rate-limited behaviour with the code's
constants `MAX_RETRIES = 3`, `RETRY_DELAY = 1`. -/
theorem c3_always_rate_limited_witness :
    (process_item rlBeh MAX_RETRIES RETRY_DELAY { index := 0, data := [] }).1.status =
        "failed" ∧
    (process_item rlBeh MAX_RETRIES RETRY_DELAY { index := 0, data := [] }).1.error =
      some ("Rate limited after " ++ toString MAX_RETRIES ++ " retries") ∧
    (process_item rlBeh MAX_RETRIES RETRY_DELAY { index := 0, data := [] }).1.retries =
      MAX_RETRIES ∧
    (process_item rlBeh MAX_RETRIES RETRY_DELAY { index := 0, data := [] }).2 =
      (List.range MAX_RETRIES).map fun k => RETRY_DELAY * 2 ^ k :=
  c3_always_rate_limited_retries_then_fails (fun _ => Or.inl rfl) rfl

/-! ### Claim C4 -/

/-- C4: an item whose unit of work transient-fails on the first call and
succeeds on the second ends Completed with `retries = 1` and the second
call's outputs stored as its result. -/
theorem c4_second_attempt_success
    {beh : Nat → AttemptBehavior} {maxRetries : Nat} {retryDelay : ℚ}
    {item : BatchItem} {execId : String} {res : WaitCompletionResult}
    (h0 : (beh 0).executeResult = CallResult.rateLimitError ∨
      ∃ id, (beh 0).executeResult = CallResult.ok id ∧
        (beh 0).waitResult = CallResult.rateLimitError)
    (h1e : (beh 1).executeResult = CallResult.ok execId)
    (h1w : (beh 1).waitResult = CallResult.ok res)
    (h1s : res.status = "completed")
    (hfresh : item.retries = 0) (hmr : 1 ≤ maxRetries) :
    (process_item beh maxRetries retryDelay item).1.status = "completed" ∧
    (process_item beh maxRetries retryDelay item).1.retries = 1 ∧
    (process_item beh maxRetries retryDelay item).1.result = res.outputs := by
  unfold process_item
  obtain ⟨f, hf⟩ : ∃ f, maxRetries + 1 = f + 1 + 1 := ⟨maxRetries - 1, by omega⟩
  rw [hf]
  have hlt : item.retries < maxRetries := by omega
  rcases h0 with he | ⟨id, he, hw⟩
  · rw [processItemAux_exec_rl_retry he hlt,
      processItemAux_wait_completed h1e h1w h1s]
    exact ⟨rfl, by simp [hfresh], rfl⟩
  · rw [processItemAux_wait_rl_retry he hw hlt,
      processItemAux_wait_completed h1e h1w h1s]
    exact ⟨rfl, by simp [hfresh], rfl⟩

/-- C4 witness: rate-limited first attempt, completed second attempt. -/
theorem c4_second_attempt_success_witness :
    (process_item retryThenOkBeh MAX_RETRIES RETRY_DELAY
        { index := 0, data := [] }).1.status = "completed" ∧
    (process_item retryThenOkBeh MAX_RETRIES RETRY_DELAY
        { index := 0, data := [] }).1.retries = 1 ∧
    (process_item retryThenOkBeh MAX_RETRIES RETRY_DELAY
        { index := 0, data := [] }).1.result = some [("out", "ok")] :=
  c4_second_attempt_success (Or.inl rfl) rfl rfl rfl rfl (by decide)

/-! ### Claim C7 -/

/-- C7: an item whose unit of work raises a non-transient exception is
marked Failed with the stringified cause, keeps its retry counter (no retry,
no back-off sleeps), and its failure neither aborts the batch (the full
result set is still produced) nor changes any other item's result. -/
theorem c7_terminal_failure_isolated
    {beh beh' : Nat → Nat → AttemptBehavior} {maxRetries : Nat} {retryDelay : ℚ}
    {rows : List JsonObj} {order : List Nat} {i : Nat} {msg : String}
    (hperm : order.Perm (List.range rows.length)) (hi : i < rows.length)
    (hfail : (beh i 0).executeResult = CallResult.failure msg ∨
      ∃ id, (beh i 0).executeResult = CallResult.ok id ∧
        (beh i 0).waitResult = CallResult.failure msg)
    (hagree : ∀ j, j ≠ i → beh j = beh' j) :
    (runBatch beh maxRetries retryDelay rows order).length = rows.length ∧
    (∀ it : BatchItem,
      (runBatch beh maxRetries retryDelay rows order)[i]? = some it →
      it.status = "failed" ∧ it.error = some msg ∧ it.retries = 0) ∧
    (process_item (beh i) maxRetries retryDelay
      { index := i, data := rows.getD i [] }).2 = [] ∧
    (∀ k, k ≠ i → (runBatch beh maxRetries retryDelay rows order)[k]? =
      (runBatch beh' maxRetries retryDelay rows order)[k]?) := by
  have hperm' : order.Perm (List.range rows.length) := hperm
  have hitem : ∀ k, k < rows.length → (initItems rows)[k]? =
      some { index := k, data := rows.getD k [] } := by
    intro k hk
    rw [initItems_getElem?]
    cases hr : rows[k]? with
    | none =>
      have := List.getElem?_eq_none_iff.mp hr
      omega
    | some r => simp [hr]
  have hproc : process_item (beh i) maxRetries retryDelay
      { index := i, data := rows.getD i [] } =
      ({ index := i, data := rows.getD i [],
         execution_id := (match (beh i 0).executeResult with
           | CallResult.ok id => some id
           | _ => none),
         status := "failed", error := some msg, retries := 0 }, []) := by
    unfold process_item
    rcases hfail with he | ⟨id, he, hw⟩
    · rw [processItemAux_exec_failure he, he]
    · rw [processItemAux_wait_failure he hw, he]
  refine ⟨?_, ?_, ?_, ?_⟩
  · rw [runBatch_eq_map hperm']
    simp [initItems_length]
  · intro it hit
    rw [runBatch_eq_map hperm', List.getElem?_map, hitem i hi] at hit
    simp only [Option.map_some'] at hit
    injection hit with h
    subst h
    rw [hproc]
    exact ⟨rfl, rfl, rfl⟩
  · rw [hproc]
  · intro k hk
    rw [runBatch_eq_map hperm', runBatch_eq_map hperm', List.getElem?_map,
      List.getElem?_map]
    by_cases hkN : k < rows.length
    · rw [hitem k hkN]
      simp only [Option.map_some']
      rw [show beh k = beh' k from hagree k hk]
    · rw [List.getElem?_eq_none (by rw [initItems_length]; omega)]
      rfl

/-- Rows and behaviours for the C7 witness: item 0 raises a terminal
exception, item 1 completes; the primed behaviour differs only at item 0. -/
def c7Rows : List JsonObj := [[("name", "A")], [("name", "B")]]

def c7Beh : Nat → Nat → AttemptBehavior := fun i _ =>
  if i = 0 then
    { executeResult := .failure "boom", waitResult := .rateLimitError }
  else
    { executeResult := .ok "exec-1",
      waitResult := .ok { status := "completed", outputs := some [("out", "1")] } }

def c7Beh' : Nat → Nat → AttemptBehavior := fun i _ =>
  if i = 0 then
    { executeResult := .ok "exec-0",
      waitResult := .ok { status := "completed", outputs := some [("out", "0")] } }
  else
    { executeResult := .ok "exec-1",
      waitResult := .ok { status := "completed", outputs := some [("out", "1")] } }

/-- C7 witness: the concrete two-item batch. -/
theorem c7_terminal_failure_isolated_witness :
    (runBatch c7Beh MAX_RETRIES RETRY_DELAY c7Rows [0, 1]).length = c7Rows.length ∧
    (∀ it : BatchItem,
      (runBatch c7Beh MAX_RETRIES RETRY_DELAY c7Rows [0, 1])[0]? = some it →
      it.status = "failed" ∧ it.error = some "boom" ∧ it.retries = 0) ∧
    (process_item (c7Beh 0) MAX_RETRIES RETRY_DELAY
      { index := 0, data := c7Rows.getD 0 [] }).2 = [] ∧
    (∀ k, k ≠ 0 → (runBatch c7Beh MAX_RETRIES RETRY_DELAY c7Rows [0, 1])[k]? =
      (runBatch c7Beh' MAX_RETRIES RETRY_DELAY c7Rows [0, 1])[k]?) :=
  c7_terminal_failure_isolated (by decide) (by decide) (Or.inl rfl)
    (fun j hj => by
      unfold c7Beh c7Beh'
      rw [if_neg hj, if_neg hj])

/-! ### Claim C9 -/

/-- Remote behaviour of the spec's example scenario: items 1 and 6 fail
permanently, the other six complete. -/
def scenarioBeh : Nat → Nat → AttemptBehavior := fun i _ =>
  if i = 1 ∨ i = 6 then
    { executeResult := .ok ("exec-" ++ toString i),
      waitResult := .ok { status := "failed",
                          error := some "Simulated permanent failure" } }
  else
    { executeResult := .ok ("exec-" ++ toString i),
      waitResult := .ok { status := "completed",
                          outputs := some [("processed", toString i)] } }

/-- C9: the eight sample items with two permanent failures give a summary of
6 Completed, 2 Failed and a success rate formatted as "75.0" (computed as
`completed / total * 100`), whatever the completion order. -/
theorem c9_sample_scenario_summary {order : List Nat}
    (hperm : order.Perm (List.range SAMPLE_DATA.length)) :
    (completedItems
        (runBatch scenarioBeh MAX_RETRIES RETRY_DELAY SAMPLE_DATA order)).length = 6 ∧
    (failedItems
        (runBatch scenarioBeh MAX_RETRIES RETRY_DELAY SAMPLE_DATA order)).length = 2 ∧
    (successRatePercent
        (runBatch scenarioBeh MAX_RETRIES RETRY_DELAY SAMPLE_DATA order)).map
      formatFixed1 = some "75.0" := by
  rw [runBatch_eq_map hperm]
  refine ⟨by decide, by decide, ?_⟩
  have h6 : (completedItems
      ((initItems SAMPLE_DATA).map fun it =>
        (process_item (scenarioBeh it.index) MAX_RETRIES RETRY_DELAY it).1)).length =
      6 := by decide
  have h8 : ((initItems SAMPLE_DATA).map fun it =>
      (process_item (scenarioBeh it.index) MAX_RETRIES RETRY_DELAY it).1).length =
      8 := by decide
  unfold successRatePercent pyDiv
  rw [h6, h8]
  norm_num
  have hfmt : formatFixed1 75 = "75.0" := by
    unfold formatFixed1 fmtTenths
    norm_num
    decide
  rw [hfmt]

/-- C9 witness: the input-order completion order. -/
theorem c9_sample_scenario_summary_witness :
    (completedItems
        (runBatch scenarioBeh MAX_RETRIES RETRY_DELAY SAMPLE_DATA
          (List.range 8))).length = 6 ∧
    (failedItems
        (runBatch scenarioBeh MAX_RETRIES RETRY_DELAY SAMPLE_DATA
          (List.range 8))).length = 2 ∧
    (successRatePercent
        (runBatch scenarioBeh MAX_RETRIES RETRY_DELAY SAMPLE_DATA
          (List.range 8))).map formatFixed1 = some "75.0" :=
  c9_sample_scenario_summary (List.Perm.refl _)

/-! ### Claim C10 -/

/-- C10: the success-rate expression divides by `len(items)` with no guard:
it is defined (returns a value) for every non-empty batch and has no value
(ZeroDivisionError) on the empty batch. -/
theorem c10_success_rate_division_guard :
    (∀ items : List BatchItem, items ≠ [] →
      (successRatePercent items).isSome = true) ∧
    successRatePercent ([] : List BatchItem) = none := by
  constructor
  · intro items hne
    unfold successRatePercent pyDiv
    have hlen : (items.length : ℚ) ≠ 0 := by
      simp only [ne_eq, Nat.cast_eq_zero, List.length_eq_zero]
      exact hne
    rw [if_neg hlen]
    rfl
  · rfl

/-- C10 witness: a singleton batch has a defined rate, the empty batch none. -/
theorem c10_success_rate_division_guard_witness :
    (successRatePercent [{ index := 0, data := [] }]).isSome = true ∧
    successRatePercent ([] : List BatchItem) = none :=
  ⟨c10_success_rate_division_guard.1 [{ index := 0, data := [] }] (by decide),
   c10_success_rate_division_guard.2⟩

/-! ### Claims C1, C2, C5, C6, C8 (scheduler) -/

/-- C1: for any input rows and any concurrency `1 ≤ C ≤ N`, when the run
finishes the shared items list holds exactly `N` WorkItems whose indices are
exactly `0..N-1` in ascending order (the input order). -/
theorem c1_run_returns_all_items_in_order
    {beh : Nat → Nat → AttemptBehavior} {C maxRetries : Nat} {rows : List JsonObj}
    {s : SchedState} (hC : 1 ≤ C) (hCN : C ≤ rows.length)
    (hre : Reachable beh C maxRetries rows s) (hdone : Done s) :
    s.items.length = rows.length ∧
    s.items.map BatchItem.index = List.range rows.length := by
  have hInv := inv_reachable hre
  exact ⟨hInv.len, map_index_eq_range hInv⟩

/-- C2: when the run finishes with no stop requested, the items list covers
every input index exactly once and every item is Completed or Failed — never
Pending or Running — whatever the remote behaviour was. -/
theorem c2_run_returns_complete_terminal_results
    {beh : Nat → Nat → AttemptBehavior} {C maxRetries : Nat} {rows : List JsonObj}
    {s : SchedState} (hre : Reachable beh C maxRetries rows s) (hdone : Done s)
    (hnc : s.cancelled = false) :
    s.items.map BatchItem.index = List.range rows.length ∧
    ∀ it ∈ s.items, it.status = "completed" ∨ it.status = "failed" := by
  have hInv := inv_reachable hre
  refine ⟨map_index_eq_range hInv, ?_⟩
  intro it hit
  rcases List.getElem_of_mem hit with ⟨n, hn, hget⟩
  have hget? : s.items[n]? = some it := by
    rw [List.getElem?_eq_getElem hn, hget]
  rcases hInv.statuses it hit with h | h | h | h
  · rcases hInv.pendOwned n it hget? h with hq | hw
    · rw [hdone.1] at hq
      cases hq
    · rw [hdone.2] at hw
      simp at hw
  · have hw := hInv.runOwned n it hget? h
    rw [hdone.2] at hw
    simp at hw
  · exact Or.inl h
  · exact Or.inr h

/-- C5: in every reachable state at most `C` items are Running, at most `C`
pool threads are busy (a thread sleeping in back-off still counts as busy),
and while all `C` threads are busy — sleeping or not — no step can dispatch
a queued item. -/
theorem c5_running_bounded_by_concurrency
    {beh : Nat → Nat → AttemptBehavior} {C maxRetries : Nat} {rows : List JsonObj}
    {s : SchedState} (hre : Reachable beh C maxRetries rows s) :
    countRunning s ≤ C ∧ s.workers.length ≤ C ∧
    (s.workers.length = C → ∀ s', Step beh C maxRetries s s' →
      s'.queue = s.queue) := by
  have hInv := inv_reachable hre
  refine ⟨le_trans (countRunning_le_workers hInv) hInv.wlen, hInv.wlen, ?_⟩
  intro hfull s' hstep
  cases hstep with
  | dispatch i q' hc hlen hq => omega
  | work p w w' it it' hw hit hws => rfl
  | finish p w it it' hw hit hws => rfl
  | cancel => rfl

/-- C6 (cancellation, modelled from the spec): after a stop request, no
further step dispatches a queued item (the queue is frozen), items already
Completed or Failed keep their exact value, queued (never-started) items are
still Pending in every later state, and in-flight workers may still finish
their item. -/
theorem c6_cancel_freezes_queue_keeps_results
    {beh : Nat → Nat → AttemptBehavior} {C maxRetries : Nat} {rows : List JsonObj}
    {s s' : SchedState} (hre : Reachable beh C maxRetries rows s)
    (hc : s.cancelled = true)
    (hstar : Relation.ReflTransGen (Step beh C maxRetries) s s') :
    s'.queue = s.queue ∧
    (∀ (k : Nat) (it : BatchItem), s.items[k]? = some it → isTerminal it →
      s'.items[k]? = some it) ∧
    (∀ i ∈ s.queue, ∀ it : BatchItem, s'.items[i]? = some it →
      it.status = "pending") ∧
    (∀ (p : Nat) (w : WorkerJob) (it it' : BatchItem),
      s.workers[p]? = some w → s.items[w.idx]? = some it →
      workerStep (beh w.idx) maxRetries w it = StepResult.done it' →
      Step beh C maxRetries s
        { s with workers := s.workers.eraseIdx p, items := s.items.set w.idx it' }) := by
  obtain ⟨hc', hq⟩ := star_cancelled hstar hc
  refine ⟨hq, star_preserves_terminal hre hstar, ?_, ?_⟩
  · intro i hi it hit
    have hInv' := inv_reachable (hre.trans hstar)
    exact hInv'.qpend i (by rw [hq]; exact hi) it hit
  · intro p w it it' hw hit hws
    exact Step.finish _ p w it it' hw hit hws

/-- C8: a step never moves an item out of a terminal state, so the count of
Completed/Failed items never decreases along any step of the run. -/
theorem c8_terminal_monotone
    {beh : Nat → Nat → AttemptBehavior} {C maxRetries : Nat} {rows : List JsonObj}
    {s s' : SchedState} (hre : Reachable beh C maxRetries rows s)
    (hstep : Step beh C maxRetries s s') :
    (∀ (k : Nat) (it : BatchItem), s.items[k]? = some it → isTerminal it →
      s'.items[k]? = some it) ∧
    countTerminal s ≤ countTerminal s' := by
  have hInv := inv_reachable hre
  exact ⟨step_preserves_terminal hInv hstep, step_countTerminal_mono hInv hstep⟩

/-! ### A concrete one-item execution trace for the scheduler witnesses -/

def demoRows : List JsonObj := [[("name", "Alice Johnson")]]

/-- Remote behaviour for the demonstration trace: execute and complete
immediately. -/
def demoBeh : Nat → Nat → AttemptBehavior := fun _ _ =>
  { executeResult := .ok "exec-1",
    waitResult := .ok { status := "completed", outputs := some [("out", "1")] } }

def demoPendingItem : BatchItem := { index := 0, data := [("name", "Alice Johnson")] }

def demoRunningItem : BatchItem :=
  { index := 0, data := [("name", "Alice Johnson")],
    execution_id := some "exec-1", status := "running" }

def demoCompletedItem : BatchItem :=
  { index := 0, data := [("name", "Alice Johnson")],
    execution_id := some "exec-1", status := "completed",
    result := some [("out", "1")] }

def demoS1 : SchedState :=
  { items := [demoPendingItem], queue := [],
    workers := [⟨0, 0, WorkerPhase.toExecute⟩], cancelled := false }

def demoS2 : SchedState :=
  { items := [demoRunningItem], queue := [],
    workers := [⟨0, 0, WorkerPhase.toWait⟩], cancelled := false }

def demoS3 : SchedState :=
  { items := [demoCompletedItem], queue := [], workers := [], cancelled := false }

def demoS4 : SchedState :=
  { items := [demoCompletedItem], queue := [], workers := [], cancelled := true }

lemma demo_step01 : Step demoBeh 1 MAX_RETRIES (initState demoRows) demoS1 := by
  have he : demoS1 = { initState demoRows with
      queue := [],
      workers := (initState demoRows).workers ++ [⟨0, 0, WorkerPhase.toExecute⟩] } := by
    decide
  rw [he]
  exact Step.dispatch _ 0 [] rfl (by decide) (by decide)

lemma demo_step12 : Step demoBeh 1 MAX_RETRIES demoS1 demoS2 := by
  have he : demoS2 = { demoS1 with
      workers := demoS1.workers.set 0 ⟨0, 0, WorkerPhase.toWait⟩,
      items := demoS1.items.set 0 demoRunningItem } := by decide
  rw [he]
  exact Step.work _ 0 ⟨0, 0, WorkerPhase.toExecute⟩ ⟨0, 0, WorkerPhase.toWait⟩
    demoPendingItem demoRunningItem (by decide) (by decide) (by decide)

lemma demo_step23 : Step demoBeh 1 MAX_RETRIES demoS2 demoS3 := by
  have he : demoS3 = { demoS2 with
      workers := demoS2.workers.eraseIdx 0,
      items := demoS2.items.set 0 demoCompletedItem } := by decide
  rw [he]
  exact Step.finish _ 0 ⟨0, 0, WorkerPhase.toWait⟩ demoRunningItem demoCompletedItem
    (by decide) (by decide) (by decide)

lemma demo_step34 : Step demoBeh 1 MAX_RETRIES demoS3 demoS4 := by
  have he : demoS4 = { demoS3 with cancelled := true } := by decide
  rw [he]
  exact Step.cancel _

lemma demo_reach1 : Reachable demoBeh 1 MAX_RETRIES demoRows demoS1 :=
  Relation.ReflTransGen.single demo_step01

lemma demo_reach2 : Reachable demoBeh 1 MAX_RETRIES demoRows demoS2 :=
  demo_reach1.tail demo_step12

lemma demo_reach3 : Reachable demoBeh 1 MAX_RETRIES demoRows demoS3 :=
  demo_reach2.tail demo_step23

lemma demo_reach4 : Reachable demoBeh 1 MAX_RETRIES demoRows demoS4 :=
  demo_reach3.tail demo_step34

/-- C1 witness: a finished one-item run with concurrency 1. -/
theorem c1_run_returns_all_items_witness :
    demoS3.items.length = demoRows.length ∧
    demoS3.items.map BatchItem.index = List.range demoRows.length :=
  c1_run_returns_all_items_in_order (by decide) (by decide) demo_reach3 ⟨rfl, rfl⟩

/-- C2 witness: the finished run's single item is terminal. -/
theorem c2_run_returns_terminal_witness :
    demoS3.items.map BatchItem.index = List.range demoRows.length ∧
    (demoCompletedItem.status = "completed" ∨ demoCompletedItem.status = "failed") :=
  ⟨(c2_run_returns_complete_terminal_results demo_reach3 ⟨rfl, rfl⟩ rfl).1,
   (c2_run_returns_complete_terminal_results demo_reach3 ⟨rfl, rfl⟩ rfl).2
     demoCompletedItem (by decide)⟩

/-- C5 witness: mid-run with one item Running under concurrency 1. -/
theorem c5_running_bounded_witness :
    countRunning demoS2 ≤ 1 ∧ demoS2.workers.length ≤ 1 :=
  ⟨(c5_running_bounded_by_concurrency demo_reach2).1,
   (c5_running_bounded_by_concurrency demo_reach2).2.1⟩

/-- C6 witness: after cancelling, the completed item keeps its exact value. -/
theorem c6_cancel_witness :
    demoS4.items[0]? = some demoCompletedItem :=
  (c6_cancel_freezes_queue_keeps_results demo_reach4 rfl
    Relation.ReflTransGen.refl).2.1 0 demoCompletedItem (by decide)
    (Or.inl (by decide))

/-- C8 witness: the terminal count does not decrease across the finishing
step of the demonstration trace. -/
theorem c8_terminal_monotone_witness : countTerminal demoS2 ≤ countTerminal demoS3 :=
  (c8_terminal_monotone demo_reach2 demo_step23).2

end FlowMaestro
